import Mathlib

/-!
Verification development for the sparse-matrix core of the repository
(`sparseMatrices.h`): the triplet/COO assembly matrix (`TripletMatrix`),
its sub-block views, the row-indexed matrix (`GenSparseMatrix`), and the
compressed-format conversion (`CSCMatrix::setFromTriplet`,
`CSRMatrix::setFromTriplet`).

Modelling conventions:
* `DataType` (a class template parameter in the source) is instantiated with
  `Int`: the code under study only adds, multiplies and compares values to
  zero, every claim is about exact bookkeeping of entries (not rounding), and
  every concrete value appearing in a claim is integral.
* `int` indices are modelled as `Int`; sizes as `Nat`.  The single place where
  unsigned wrap-around matters (the `index.size () - 1` loop bound of
  `TripletMatrix::sumDuplicates`, a `size_t` subtraction) is modelled exactly
  with `% 2 ^ 64`.
* `aol::Vector` / `std::vector` accesses carry no bounds check in release
  builds; the embedding guards every access, so an out-of-bounds read or
  write makes the whole operation return `none` (undefined behaviour in C++).
* `std::sort` with a strict comparator leaves the order of tied elements
  unspecified; it is modelled by a stable insertion sort with the comparator
  induced by the source's `RowColIndexSorter` (a legitimate deterministic
  refinement).
-/

/-- The matrix element type: the `DataType` template parameter of the source,
instantiated with exact integer arithmetic. -/
abbrev DataType : Type := Int

/-- Guarded read of position `i` (a C++ `int`) of a vector: `none` models the
out-of-bounds access that release builds leave undefined. -/
def lget? {α : Type} (l : List α) (i : Int) : Option α :=
  if i < 0 then none else l.get? i.toNat

/-- Guarded write of position `i` of a vector. -/
def lset? {α : Type} (l : List α) (i : Int) (v : α) : Option (List α) :=
  if i < 0 then none
  else if i.toNat < l.length then some (l.set i.toNat v) else none

/-- Guarded read at an unsigned position. -/
def lgetN? {α : Type} (l : List α) (i : Nat) : Option α :=
  l.get? i

/-- Guarded write at an unsigned position. -/
def lsetN? {α : Type} (l : List α) (i : Nat) (v : α) : Option (List α) :=
  if i < l.length then some (l.set i v) else none

/-- The integers `p1, p1+1, …, p2-1`, the range of `for (p = p1; p < p2; ++p)`. -/
def intRange (p1 p2 : Int) : List Int :=
  (List.range (p2 - p1).toNat).map (fun k => p1 + k)

/-- One (row, column, value) contribution of a `TripletMatrix`.  The C++
class keeps three parallel vectors `_rowIndex`, `_colIndex`, `_value`,
always grown and shrunk in lockstep; the embedding fuses them into one
list of triples. -/
structure Trip where
  row : Int
  col : Int
  val : DataType
deriving DecidableEq, Repr

/-- Source class `aol::TripletMatrix`: dimensions plus the entry list (the three parallel
vectors of the source, fused). -/
structure TripletMatrix where
  numRows : Nat
  numCols : Nat
  entries : List Trip
deriving DecidableEq, Repr

/-- Source `TripletMatrix::add`: unconditionally append the triple (bounds are
checked only under `BOUNDS_CHECK`, which release builds disable). -/
def TripletMatrix.add (M : TripletMatrix) (i j : Int) (v : DataType) : TripletMatrix :=
  { M with entries := M.entries ++ [⟨i, j, v⟩] }

/-- Accumulator loop of `TripletMatrix::get`: `ret += _value[i]` over all
positions matching (row, col). -/
def tripletGetAux (row col : Int) : List Trip → DataType → DataType
  | [], acc => acc
  | e :: rest, acc =>
      tripletGetAux row col rest (if e.row = row ∧ e.col = col then acc + e.val else acc)

/-- Source `TripletMatrix::get`: sum of all stored contributions at (row, col). -/
def TripletMatrix.get (M : TripletMatrix) (row col : Int) : DataType :=
  tripletGetAux row col M.entries 0

/-- Source `TripletMatrix::setEntryToZero`: set `_value[k] = 0.0` for every stored
position `k` matching (row, col); nothing is removed. -/
def TripletMatrix.setEntryToZero (M : TripletMatrix) (row col : Int) : TripletMatrix :=
  { M with entries :=
      M.entries.map (fun e => if e.row = row ∧ e.col = col then { e with val := 0 } else e) }

/-- Source `TripletMatrix::set`: zero every existing matching entry, then append. -/
def TripletMatrix.set (M : TripletMatrix) (row col : Int) (v : DataType) : TripletMatrix :=
  (M.setEntryToZero row col).add row col v

/-- Source `TripletMatrix::removeZeroEntries`, loop shape included: the C++
`for (i = 0; i < _value.size (); ++i) { if (_value[i] == 0.0) erase(i); }`
increments `i` even after an erase, so the element shifted into position `i`
is never examined.  The recursion reproduces exactly that: after dropping a
zero entry, the next element is kept unexamined. -/
def removeZeroAux : List Trip → List Trip
  | [] => []
  | e :: rest =>
      if e.val = 0 then
        match rest with
        | [] => []
        | b :: rest2 => b :: removeZeroAux rest2
      else e :: removeZeroAux rest

/-- Source `TripletMatrix::removeZeroEntries` on the whole matrix. -/
def TripletMatrix.removeZeroEntries (M : TripletMatrix) : TripletMatrix :=
  { M with entries := removeZeroAux M.entries }

/-- One step of `TripletMatrix::removeRowCol`, loop shape included: erase a
triple touching row/column `i` (and, because the C++ loop increments `k`
after `erase(k)`, skip the element shifted into position `k` untouched), or
decrement the larger indices of a surviving triple. -/
def removeRowColAux (i : Int) : List Trip → List Trip
  | [] => []
  | e :: rest =>
      if e.row = i ∨ e.col = i then
        match rest with
        | [] => []
        | b :: rest2 => b :: removeRowColAux i rest2
      else
        { row := if e.row > i then e.row - 1 else e.row,
          col := if e.col > i then e.col - 1 else e.col,
          val := e.val } :: removeRowColAux i rest

/-- Source `TripletMatrix::removeRowCol`. -/
def TripletMatrix.removeRowCol (M : TripletMatrix) (i : Int) : TripletMatrix :=
  { M with entries := removeRowColAux i M.entries }

/-- Stable insertion of `a` into a list sorted by the total preorder `le`. -/
def insertSorted {α : Type} (le : α → α → Bool) (a : α) : List α → List α
  | [] => [a]
  | b :: rest => if le a b then a :: b :: rest else b :: insertSorted le a rest

/-- Stable insertion sort: the deterministic refinement chosen for
`std::sort` (which leaves tied elements in unspecified order). -/
def isort {α : Type} (le : α → α → Bool) : List α → List α
  | [] => []
  | a :: rest => insertSorted le a (isort le rest)

/-- Source `TripletMatrix::RowColIndexSorter::operator()`: position `i` sorts before
position `j` when `(row[i] < row[j]) || (row[i] == row[j] && col[i] < col[j])`.
Out-of-range positions read 0, as the comparator is only ever applied to
positions below the common length of the index vectors. -/
def rowColLt (ri ci : List Int) (i j : Nat) : Bool :=
  (ri.getD i 0 < ri.getD j 0) || (ri.getD i 0 == ri.getD j 0 && ci.getD i 0 < ci.getD j 0)

/-- The non-strict order induced by `RowColIndexSorter`, used to drive the
stable sort refinement of `std::sort`. -/
def rowColLe (ri ci : List Int) (i j : Nat) : Bool :=
  !(rowColLt ri ci j i)

/-- Source expression `size - 1` computed in 64-bit unsigned arithmetic, exactly as the loop
bound `index.size () - 1` of `TripletMatrix::sumDuplicates` computes it:
for `size = 0` the subtraction wraps to `2 ^ 64 - 1`. -/
def usub1 (n : Nat) : Nat :=
  (n + 2 ^ 64 - 1) % 2 ^ 64

/-- Inner loop of `TripletMatrix::sumDuplicates`: while position `index[j]`
holds the same (row, col) as `index[i]`, accumulate `_value[index[j]]` into
`_value[index[i]]`, zero `_value[index[j]]`, and stop as soon as `++j`
reaches `index.size ()`.  Every vector access is guarded; the `fuel`
argument only makes the recursion structural (it is never exhausted on the
runs the outer loop performs). -/
def sumDupInner (ri ci : List Int) (index : List Nat) :
    Nat → Nat → Nat → List DataType → Option (Nat × List DataType)
  | 0, _, _, _ => none
  | fuel + 1, i, j, vals => do
      let pi ← lgetN? index i
      let pj ← lgetN? index j
      let rj ← lgetN? ri pj
      let rI ← lgetN? ri pi
      if rj = rI then do
        let cj ← lgetN? ci pj
        let cI ← lgetN? ci pi
        if cj = cI then do
          let vi ← lgetN? vals pi
          let vj ← lgetN? vals pj
          let vals1 ← lsetN? vals pi (vi + vj)
          let vals2 ← lsetN? vals1 pj 0
          if j + 1 ≥ index.length then pure (j + 1, vals2)
          else sumDupInner ri ci index fuel i (j + 1) vals2
        else pure (j, vals)
      else pure (j, vals)

/-- Outer loop of `TripletMatrix::sumDuplicates`: `while (i < index.size () - 1)`
with the bound computed in unsigned arithmetic (`usub1`), body `j = i + 1`,
the inner run, then `i += (j - i)`. -/
def sumDupOuter (ri ci : List Int) (index : List Nat) :
    Nat → Nat → List DataType → Option (List DataType)
  | 0, _, _ => none
  | fuel + 1, i, vals =>
      if i < usub1 index.length then
        match sumDupInner ri ci index (index.length + 1) i (i + 1) vals with
        | none => none
        | some (j, vals2) => sumDupOuter ri ci index fuel (i + (j - i)) vals2
      else some vals

/-- Rebuild the fused entry list from the three parallel vectors. -/
def zipTrips : List Int → List Int → List DataType → List Trip
  | r :: rs, c :: cs, v :: vs => ⟨r, c, v⟩ :: zipTrips rs cs vs
  | _, _, _ => []

/-- Source `TripletMatrix::sumDuplicates`: build the identity index permutation,
sort it with `RowColIndexSorter`, merge runs of equal (row, col) positions
(summing into the first, zeroing the rest), then `removeZeroEntries`.
`none` models an out-of-bounds vector access (undefined behaviour). -/
def TripletMatrix.sumDuplicates (M : TripletMatrix) : Option TripletMatrix := do
  let n := M.entries.length
  let ri := M.entries.map Trip.row
  let ci := M.entries.map Trip.col
  let vals := M.entries.map Trip.val
  let index := isort (rowColLe ri ci) (List.range n)
  let vals2 ← sumDupOuter ri ci index (n + 2) 0 vals
  pure { M with entries := removeZeroAux (zipTrips ri ci vals2) }

/-- Source `aol::CSMatrix`: index vector (minor axis), pointer vector, value vector.
For `CSCMatrix` the major axis is columns (`index` lists row indices,
`indPointer` holds column pointers); for `CSRMatrix` it is rows. -/
structure CSMatrix where
  numRows : Nat
  numCols : Nat
  index : List Int
  indPointer : List Int
  value : List DataType
deriving DecidableEq, Repr

/-- Guarded increment of one vector cell, the `++( t[k] )` of the source. -/
def bumpAt (t : List Int) (k : Int) : Option (List Int) := do
  let c ← lget? t k
  lset? t k (c + 1)

/-- Counting pass shared by both conversions: `for each k in ks: ++t[k]`. -/
def bumpList (t : List Int) : List Int → Option (List Int)
  | [] => some t
  | k :: ks => do
    let t2 ← bumpAt t k
    bumpList t2 ks

/-- Prefix-sum pass shared by all four pointer loops of the conversions:
`for (m = j; m < j + rem; ++m) { ptr[m+1] = ptr[m] + t[m]; t[m] = ptr[m]; }`.
The iteration count `rem` is whatever bound the source loop uses, which is
not always the length of `ptr` minus one. -/
def ptrLoop (ptr t : List Int) : Nat → Int → Option (List Int × List Int)
  | 0, _ => some (ptr, t)
  | rem + 1, j => do
    let a ← lget? ptr j
    let b ← lget? t j
    let ptr2 ← lset? ptr (j + 1) (a + b)
    let t2 ← lset? t j a
    ptrLoop ptr2 t2 rem (j + 1)

/-- Scatter pass of `CSCMatrix::setFromTriplet`:
`for (i < nnz) { k = t[tripletRow[i]]++; colIndex[k] = tripletCol[i]; val[k] = tripletVal[i]; }`. -/
def scatterByRow (t ci : List Int) (v : List DataType) :
    List Trip → Option (List Int × List Int × List DataType)
  | [] => some (t, ci, v)
  | e :: es => do
    let k ← lget? t e.row
    let t2 ← lset? t e.row (k + 1)
    let ci2 ← lset? ci k e.col
    let v2 ← lset? v k e.val
    scatterByRow t2 ci2 v2 es

/-- Scatter pass of `CSRMatrix::setFromTriplet`:
`for (i < nnz) { k = t[tripletCol[i]]++; rowIndex[k] = tripletRow[i]; val[k] = tripletVal[i]; }`. -/
def scatterByCol (t rx : List Int) (v : List DataType) :
    List Trip → Option (List Int × List Int × List DataType)
  | [] => some (t, rx, v)
  | e :: es => do
    let k ← lget? t e.col
    let t2 ← lset? t e.col (k + 1)
    let rx2 ← lset? rx k e.row
    let v2 ← lset? v k e.val
    scatterByCol t2 rx2 v2 es

/-- Inner loop of the duplicate-summing pass, identical in both conversions:
walk the positions `ps` of one bucket; marker `< p1` means a new compacted
entry at the write cursor `pd`, otherwise accumulate into the previously
compacted slot `pj = t[k]`. -/
def dedupInner (p1 : Int) (t idx : List Int) (v : List DataType) (pd : Int) :
    List Int → Option (List Int × List Int × List DataType × Int)
  | [] => some (t, idx, v, pd)
  | p :: ps => do
    let k ← lget? idx p
    let pj ← lget? t k
    if pj < p1 then do
      let t2 ← lset? t k pd
      let idx2 ← lset? idx pd k
      let vp ← lget? v p
      let v2 ← lset? v pd vp
      dedupInner p1 t2 idx2 v2 (pd + 1) ps
    else do
      let vp ← lget? v p
      let vj ← lget? v pj
      let v2 ← lset? v pj (vj + vp)
      dedupInner p1 t idx v2 pd ps

/-- Outer loop of the duplicate-summing pass:
`for (m = j; m < j + rem; ++m) { p1 = ptr[m]; p2 = ptr[m+1]; pd = p1; inner; cnt[m] = pd - p1; }`. -/
def dedupOuter (ptr : List Int) (t idx : List Int) (v : List DataType) (cnt : List Int) :
    Nat → Int → Option (List Int × List Int × List DataType × List Int)
  | 0, _ => some (t, idx, v, cnt)
  | rem + 1, m => do
    let p1 ← lget? ptr m
    let p2 ← lget? ptr (m + 1)
    let inner ← dedupInner p1 t idx v p1 (intRange p1 p2)
    let cnt2 ← lset? cnt m (inner.2.2.2 - p1)
    dedupOuter ptr inner.1 inner.2.1 inner.2.2.1 cnt2 rem (m + 1)

/-- Counting pass over the compacted buckets, identical in both conversions:
`for (m = j; m < j + rem; ++m) for (p in [ptr[m], ptr[m] + cnt[m])) ++t[idx[p]]`. -/
def countCompacted (ptr cnt idx : List Int) (t : List Int) :
    Nat → Int → Option (List Int)
  | 0, _ => some t
  | rem + 1, m => do
    let base ← lget? ptr m
    let c ← lget? cnt m
    let t2 ← countWindow idx t (intRange base (base + c))
    countCompacted ptr cnt idx t2 rem (m + 1)
where
  countWindow (idx t : List Int) : List Int → Option (List Int)
    | [] => some t
    | p :: ps => do
      let k ← lget? idx p
      let t2 ← bumpAt t k
      countWindow idx t2 ps

/-- Final scatter of one compacted bucket, identical in both conversions:
`for (p in window) { k = t[idx[p]]++; index[k] = m; value[k] = val[p]; }`. -/
def fillWindow (idx : List Int) (vSrc : List DataType) (m : Int)
    (t ix : List Int) (vv : List DataType) :
    List Int → Option (List Int × List Int × List DataType)
  | [] => some (t, ix, vv)
  | p :: ps => do
    let k0 ← lget? idx p
    let k ← lget? t k0
    let t2 ← lset? t k0 (k + 1)
    let ix2 ← lset? ix k m
    let vp ← lget? vSrc p
    let vv2 ← lset? vv k vp
    fillWindow idx vSrc m t2 ix2 vv2 ps

/-- Final scatter over all compacted buckets. -/
def fillCompacted (ptr cnt idx : List Int) (vSrc : List DataType)
    (t ix : List Int) (vv : List DataType) :
    Nat → Int → Option (List Int × List Int × List DataType)
  | 0, _ => some (t, ix, vv)
  | rem + 1, m => do
    let base ← lget? ptr m
    let c ← lget? cnt m
    let w ← fillWindow idx vSrc m t ix vv (intRange base (base + c))
    fillCompacted ptr cnt idx vSrc w.1 w.2.1 w.2.2 rem (m + 1)

/-- Source `CSCMatrix::setFromTriplet`, transcribed loop by loop with the loop
bounds exactly as written in the source — several of them run over
`getNumCols ()` where the vector being traversed is sized by
`getNumRows ()`, and vice versa.  Every vector access is guarded: `none`
models an out-of-bounds access, which release builds leave undefined and
`BOUNDS_CHECK` builds turn into a thrown exception. -/
def cscSetFromTriplet (A : TripletMatrix) : Option CSMatrix := do
  let nR := A.numRows
  let nC := A.numCols
  let tripletRow := A.entries.map Trip.row
  let tripletCol := A.entries.map Trip.col
  let tripletVal := A.entries.map Trip.val
  -- aol::Vector<int64_t> t ( aol::Max ( numRows, numCols ) ), zero-initialized;
  -- rowPointer ( numRows + 1 ); colIndex ( tripletCol.size () ); val ( tripletVal.size () )
  let t0 : List Int := List.replicate (max nR nC) 0
  let rowPointer0 : List Int := List.replicate (nR + 1) 0
  let colIndex0 : List Int := List.replicate tripletCol.length 0
  let val0 : List DataType := List.replicate tripletVal.length 0
  -- Count num. of entries per row: for (i < nnz) ++t[tripletRow[i]]
  let t1 ← bumpList t0 tripletRow
  -- Set row pointers: for (j < numCols) (sic) { rowPointer[j+1] = rowPointer[j] + t[j]; t[j] = rowPointer[j]; }
  let s1 ← ptrLoop rowPointer0 t1 nC 0
  let rowPointer := s1.1
  -- Fill matrix (bucket by row)
  let s2 ← scatterByRow s1.2 colIndex0 val0 A.entries
  -- t.setAll ( -1 ); rowCount ( numRows )
  let t4 : List Int := List.replicate (max nR nC) (-1)
  let rowCount0 : List Int := List.replicate nR 0
  -- Sum up duplicate entries: for (i < numRows) over bucket [rowPointer[i], rowPointer[i+1])
  let s3 ← dedupOuter rowPointer t4 s2.2.1 s2.2.2 rowCount0 nR 0
  let colIndex := s3.2.1
  let valDedup := s3.2.2.1
  let rowCount := s3.2.2.2
  -- t.setZero (); count num. of entries per column: for (i < numRows) over the compacted buckets
  let t6 : List Int := List.replicate (max nR nC) 0
  let t7 ← countCompacted rowPointer rowCount colIndex t6 nR 0
  let numEntries : Int := t7.foldl (· + ·) 0
  -- _index.resize ( numEntries ); _value.resize ( numEntries )
  let index0 : List Int := List.replicate numEntries.toNat 0
  let value0 : List DataType := List.replicate numEntries.toNat 0
  -- _indPointer.resize ( numCols + 1 ); _indPointer[0] = 0; for (j < numCols) prefix sum
  let s4 ← ptrLoop (List.replicate (nC + 1) 0) t7 nC 0
  let indPointer := s4.1
  -- Fill matrix: for (i < numRows) over the compacted buckets, _index[k] = i
  let s5 ← fillCompacted rowPointer rowCount colIndex valDedup s4.2 index0 value0 nR 0
  pure { numRows := nR, numCols := nC, index := s5.2.1, indPointer := indPointer, value := s5.2.2 }

/-- Source `CSRMatrix::setFromTriplet`, transcribed loop by loop with the loop
bounds exactly as written in the source (here too `getNumRows ()` and
`getNumCols ()` are mixed: `colPointer` is sized `numCols + 1` but its
prefix-sum loop runs over `numRows`, `colCount` is sized `numRows` but
indexed by the column loop, and the final pointer prefix-sum loop runs
over `numCols` on a vector sized `numRows + 1`). -/
def csrSetFromTriplet (A : TripletMatrix) : Option CSMatrix := do
  let nR := A.numRows
  let nC := A.numCols
  let tripletRow := A.entries.map Trip.row
  let tripletCol := A.entries.map Trip.col
  let tripletVal := A.entries.map Trip.val
  -- t ( aol::Max ( numRows, numCols ) ); rowIndex ( tripletRow.size () );
  -- colPointer ( numCols + 1 ); val ( tripletVal.size () )
  let t0 : List Int := List.replicate (max nR nC) 0
  let rowIndex0 : List Int := List.replicate tripletRow.length 0
  let colPointer0 : List Int := List.replicate (nC + 1) 0
  let val0 : List DataType := List.replicate tripletVal.length 0
  -- Count num. of entries per column: for (j < nnz) ++t[tripletCol[j]]
  let t1 ← bumpList t0 tripletCol
  -- Set column pointers: for (i < numRows) (sic) { colPointer[i+1] = colPointer[i] + t[i]; t[i] = colPointer[i]; }
  let s1 ← ptrLoop colPointer0 t1 nR 0
  let colPointer := s1.1
  -- Fill matrix (bucket by column)
  let s2 ← scatterByCol s1.2 rowIndex0 val0 A.entries
  -- t.setAll ( -1 ); colCount ( numRows ) (sic)
  let t4 : List Int := List.replicate (max nR nC) (-1)
  let colCount0 : List Int := List.replicate nR 0
  -- Sum up duplicate entries: for (j < numCols) over bucket [colPointer[j], colPointer[j+1])
  let s3 ← dedupOuter colPointer t4 s2.2.1 s2.2.2 colCount0 nC 0
  let rowIndex := s3.2.1
  let valDedup := s3.2.2.1
  let colCount := s3.2.2.2
  -- t.setZero (); count num. of entries per row: for (j < numRows) over the compacted buckets
  let t6 : List Int := List.replicate (max nR nC) 0
  let t7 ← countCompacted colPointer colCount rowIndex t6 nR 0
  let numEntries : Int := t7.foldl (· + ·) 0
  -- _index.resize ( numEntries ); _value.resize ( numEntries )
  let index0 : List Int := List.replicate numEntries.toNat 0
  let value0 : List DataType := List.replicate numEntries.toNat 0
  -- _indPointer.resize ( numRows + 1 ); _indPointer[0] = 0; for (i < numCols) (sic) prefix sum
  let s4 ← ptrLoop (List.replicate (nR + 1) 0) t7 nC 0
  let indPointer := s4.1
  -- Fill matrix: for (j < numCols) over the compacted buckets, _index[k] = j
  let s5 ← fillCompacted colPointer colCount rowIndex valDedup s4.2 index0 value0 nC 0
  pure { numRows := nR, numCols := nC, index := s5.2.1, indPointer := indPointer, value := s5.2.2 }

/-- Scan loop shared by `CSCMatrix::get` and `CSRMatrix::get`: look for
`_index[i] == target` starting at position `s`, for the number of
iterations the slice `[s, e)` allows, returning `_value[i]` on the first
hit and zero when the slice is exhausted. -/
def csGetScan (index : List Int) (value : List DataType) (target : Int) :
    Int → Nat → Option DataType
  | _, 0 => pure 0
  | s, rem + 1 => do
    let ix ← lget? index s
    if ix = target then lget? value s
    else csGetScan index value target (s + 1) rem

/-- Source `CSCMatrix::get`: scan column `col` between `_indPointer[col]` and
`_indPointer[col + 1]` for `_index[i] == row`; no match means zero. -/
def cscGet (C : CSMatrix) (row col : Int) : Option DataType := do
  let s ← lget? C.indPointer col
  let e ← lget? C.indPointer (col + 1)
  csGetScan C.index C.value row s (e - s).toNat

/-- Source `CSRMatrix::get`: scan row `row` between `_indPointer[row]` and
`_indPointer[row + 1]` for `_index[j] == col`; no match means zero. -/
def csrGet (C : CSMatrix) (row col : Int) : Option DataType := do
  let s ← lget? C.indPointer row
  let e ← lget? C.indPointer (row + 1)
  csGetScan C.index C.value col s (e - s).toNat

example : cscSetFromTriplet ⟨2, 1, [⟨0, 0, 1⟩, ⟨1, 0, 2⟩]⟩
    = some ⟨2, 1, [0], [0, 1], [1]⟩ := by decide
example : cscSetFromTriplet ⟨1, 2, [⟨0, 1, 1⟩]⟩ = none := by decide
example : csrSetFromTriplet ⟨2, 1, [⟨0, 0, 1⟩, ⟨1, 0, 2⟩]⟩ = none := by decide
example : cscSetFromTriplet ⟨3, 3, [⟨0, 0, 1⟩, ⟨2, 0, 2⟩, ⟨0, 0, 3⟩]⟩
    = some ⟨3, 3, [0, 2], [0, 2, 2, 2], [4, 2]⟩ := by decide
example : (TripletMatrix.get ⟨2, 2, [⟨0, 0, 3⟩, ⟨0, 0, -3⟩, ⟨1, 1, 4⟩]⟩ 0 0) = 0 := by decide
example : (TripletMatrix.removeZeroEntries ⟨2, 2, [⟨0, 0, 10⟩, ⟨0, 0, 0⟩, ⟨0, 0, 0⟩, ⟨0, 0, 0⟩]⟩).entries
    = [⟨0, 0, 10⟩, ⟨0, 0, 0⟩] := by decide
example : TripletMatrix.sumDuplicates ⟨2, 2, []⟩ = none := by rfl
example : TripletMatrix.sumDuplicates ⟨2, 2, [⟨0, 0, 3⟩, ⟨0, 0, -3⟩, ⟨1, 1, 4⟩]⟩
    = some ⟨2, 2, [⟨0, 0, 0⟩, ⟨1, 1, 4⟩]⟩ := by decide

/-- Modelled from the spec: `aol::SparseRow` lives in `rows.h`, which is not
part of the sources under study; per the spec an explicit row stores sparse
column→value associations. -/
structure SRow where
  assoc : List (Int × DataType)
deriving DecidableEq

/-- Modelled from the spec: `Row::get` of an explicit row returns the value
associated with the column, zero when the column is not stored. -/
def SRow.rget (j : Int) : List (Int × DataType) → DataType
  | [] => 0
  | (c, v) :: rest => if c = j then v else SRow.rget j rest

/-- Modelled from the spec: `Row::set` of an explicit row replaces the
association for the column (appending one when absent). -/
def SRow.rset (r : SRow) (j : Int) (v : DataType) : SRow :=
  if (r.assoc.map Prod.fst).contains j then
    ⟨r.assoc.map (fun p => if p.1 = j then (p.1, v) else p)⟩
  else ⟨r.assoc ++ [(j, v)]⟩

/-- Modelled from the spec: `Row::scale` multiplies every stored value of
the row by the factor. -/
def SRow.rscale (r : SRow) (f : DataType) : SRow :=
  ⟨r.assoc.map (fun p => (p.1, f * p.2))⟩

/-- Source `aol::GenSparseMatrix`: one optional row handle per row (a `NULL`
pointer, i.e. `none`, means an implicit identity row) plus the shared
`_diagEntry` used for all absent rows. -/
structure GenSparseMatrix where
  numRows : Nat
  numCols : Nat
  rows : List (Option SRow)
  diagEntry : DataType
deriving DecidableEq

/-- Source `GenSparseMatrix::get`: delegate to the row when present; otherwise
`_diagEntry` on the diagonal and zero elsewhere.  The guarded read of
`rows[I]` returns `none` for an out-of-range row index. -/
def GenSparseMatrix.get (M : GenSparseMatrix) (I J : Int) : Option DataType := do
  let h ← lget? M.rows I
  match h with
  | some row => pure (SRow.rget J row.assoc)
  | none => pure (if I = J then M.diagEntry else 0)

/-- Source `GenSparseMatrix::set`: delegate to the row when present; on an absent
row, do nothing when `(I == J && Value == _diagEntry) || Value == 0`, and
otherwise throw `"Row does not exist."`. -/
def GenSparseMatrix.set (M : GenSparseMatrix) (I J : Int) (v : DataType) :
    Except String GenSparseMatrix :=
  match lget? M.rows I with
  | none => Except.error "index out of bounds"
  | some (some row) =>
      Except.ok { M with rows := M.rows.set I.toNat (some (row.rset J v)) }
  | some none =>
      if (I = J ∧ v = M.diagEntry) ∨ v = 0 then Except.ok M
      else Except.error "Row does not exist."

/-- Source `GenSparseMatrix::operator*=`: scale every present row; absent
(implicit identity) rows are skipped, as the source comments document. -/
def GenSparseMatrix.scaleAll (M : GenSparseMatrix) (f : DataType) : GenSparseMatrix :=
  { M with rows := M.rows.map (fun h => match h with
      | some row => some (row.rscale f)
      | none => none) }

/-- Source `GenSparseMatrix::scaleRow`: scale row `I` with the factor unless it is
an implicit identity row (then the call does nothing). -/
def GenSparseMatrix.scaleRow (M : GenSparseMatrix) (I : Int) (f : DataType) :
    Option GenSparseMatrix := do
  let h ← lget? M.rows I
  match h with
  | some row => pure { M with rows := M.rows.set I.toNat (some (row.rscale f)) }
  | none => pure M

/-- Source `aol::TripletMatrixOffset`: a non-owning view of a shared
`TripletMatrix` translating block-local coordinates by fixed offsets.  The
embedding passes the shared matrix by value, so a mutating call returns
the updated shared matrix inside the view. -/
structure TripletMatrixOffset where
  mat : TripletMatrix
  numRows : Nat
  numCols : Nat
  rowOffset : Int
  colOffset : Int
deriving DecidableEq

/-- Source `TripletMatrixOffset::add`: delegate to the shared matrix at the
translated coordinates. -/
def TripletMatrixOffset.add (V : TripletMatrixOffset) (row col : Int) (v : DataType) :
    TripletMatrixOffset :=
  { V with mat := V.mat.add (row + V.rowOffset) (col + V.colOffset) v }

/-- Source `TripletMatrixOffsetUpperTriangle::add`: only the upper triangular part
of the block should be filled, so the write is delegated exactly when
`row <= col` and silently discarded otherwise. -/
def TripletMatrixOffsetUpperTriangle.add (V : TripletMatrixOffset) (row col : Int)
    (v : DataType) : TripletMatrixOffset :=
  if row ≤ col then
    { V with mat := V.mat.add (row + V.rowOffset) (col + V.colOffset) v }
  else V

/-- A 2×1 assembly matrix with one entry per row: an in-bounds non-square
input for the compressed-format conversions. -/
def tallTriplet : TripletMatrix := ⟨2, 1, [⟨0, 0, 1⟩, ⟨1, 0, 2⟩]⟩

/-- The compressed matrix `CSCMatrix::setFromTriplet` actually builds from
`tallTriplet`: the contribution of row 1 has been dropped. -/
def tallTripletCsc : CSMatrix := ⟨2, 1, [0], [0, 1], [1]⟩

/-- C1: the claim asserts `get (i, j) == A.get (i, j)` for every
`TripletMatrix` of any shape.  On the 2×1 matrix `tallTriplet` the CSC
conversion succeeds without any out-of-bounds access but drops the (1,0)
entry (its row-pointer prefix-sum loop runs over `getNumCols () = 1`
instead of `getNumRows () = 2`), so the compressed `get (1, 0)` returns 0
while the assembly `get (1, 0)` returns 2; the CSR conversion on the same
input walks out of bounds. -/
theorem cscCsrSetFromTriplet_nonSquare_dropsEntry :
    cscSetFromTriplet tallTriplet = some tallTripletCsc ∧
    cscGet tallTripletCsc 1 0 = some 0 ∧
    TripletMatrix.get tallTriplet 1 0 = 2 ∧
    csrSetFromTriplet tallTriplet = none := by
  refine ⟨by decide, by decide, by decide, by decide⟩

/-- A 1×2 assembly matrix with a single in-bounds entry. -/
def wideTriplet : TripletMatrix := ⟨1, 2, [⟨0, 1, 1⟩]⟩

/-- C2: the claim asserts the pointer/sortedness invariants for the matrix
built from every `TripletMatrix`.  On the 1×2 matrix `wideTriplet` both
conversions write `rowPointer[2]` (resp. `_indPointer[2]`) into a pointer
vector of length `numRows + 1 = 2`, an out-of-bounds write (undefined in
release builds, an exception under `BOUNDS_CHECK`), so no compressed
matrix satisfying the claimed invariants is built at all. -/
theorem cscCsrSetFromTriplet_nonSquare_outOfBounds :
    cscSetFromTriplet wideTriplet = none ∧ csrSetFromTriplet wideTriplet = none := by
  refine ⟨by decide, by decide⟩

/-- Four duplicate contributions at (0,0): values 1, 2, 3, 4. -/
def dupRun4 : TripletMatrix := ⟨1, 1, [⟨0, 0, 1⟩, ⟨0, 0, 2⟩, ⟨0, 0, 3⟩, ⟨0, 0, 4⟩]⟩

/-- What `sumDuplicates` leaves of `dupRun4`: the summed entry plus one
zero-valued duplicate that `removeZeroEntries` skipped. -/
def dupRun4After : TripletMatrix := ⟨1, 1, [⟨0, 0, 10⟩, ⟨0, 0, 0⟩]⟩

/-- C3: after `sumDuplicates` the value of `get (0, 0)` is preserved (10),
but two stored triples with coordinates (0,0) remain, not at most one:
`removeZeroEntries` increments its loop index after `erase(i)`, so the
element shifted into position `i` is skipped, leaving a zero-valued
duplicate behind. -/
theorem sumDuplicates_leaves_second_triple :
    TripletMatrix.sumDuplicates dupRun4 = some dupRun4After ∧
    TripletMatrix.get dupRun4After 0 0 = TripletMatrix.get dupRun4 0 0 ∧
    dupRun4After.entries.countP (fun e => e.row == 0 && e.col == 0) = 2 := by
  refine ⟨by decide, by decide, by decide⟩

/-- The spec scenario for C4: add (0,0,3.0), add (0,0,-3.0), add (1,1,4.0). -/
def cancelScenario : TripletMatrix := ⟨2, 2, [⟨0, 0, 3⟩, ⟨0, 0, -3⟩, ⟨1, 1, 4⟩]⟩

/-- What `sumDuplicates` leaves of `cancelScenario`: the zero-valued (0,0)
stub survives next to (1,1,4). -/
def cancelScenarioAfter : TripletMatrix := ⟨2, 2, [⟨0, 0, 0⟩, ⟨1, 1, 4⟩]⟩

/-- C4: the claim says the entries after `sumDuplicates` are exactly
{(1,1): 4.0}.  In fact a zero-valued (0,0) triple remains stored (the
erase-skip of `removeZeroEntries`), so two triples are stored, one of them
at (0,0). -/
theorem sumDuplicates_scenario_leaves_zero_stub :
    TripletMatrix.sumDuplicates cancelScenario = some cancelScenarioAfter ∧
    cancelScenarioAfter.entries.length = 2 ∧
    cancelScenarioAfter.entries.countP (fun e => e.row == 0 && e.col == 0) = 1 := by
  refine ⟨by decide, by decide, by decide⟩

/-- Two triples touching row/column 1, the second right after the first. -/
def touchingPair : TripletMatrix := ⟨3, 3, [⟨1, 1, 5⟩, ⟨1, 1, 6⟩]⟩

/-- C6: `removeRowCol (1)` must drop every triple touching row or column 1,
but the loop increments `k` after `erase(k)`, skipping the element shifted
into position `k`: the triple (1,1,6) survives untouched (neither removed
nor index-shifted). -/
theorem removeRowCol_skips_after_erase :
    TripletMatrix.removeRowCol touchingPair 1 = (⟨3, 3, [⟨1, 1, 6⟩]⟩ : TripletMatrix) ∧
    (TripletMatrix.removeRowCol touchingPair 1).entries.countP
      (fun e => e.row == 1 || e.col == 1) = 1 := by
  refine ⟨by decide, by decide⟩

/-- A `TripletMatrix` with zero stored entries. -/
def emptyTriplet : TripletMatrix := ⟨3, 3, []⟩

/-- C10: on an empty matrix the loop bound `index.size () - 1` of
`sumDuplicates` underflows to `2 ^ 64 - 1` in unsigned arithmetic, the loop
body runs, and `index[1]` is read out of bounds: the guarded embedding
reports the out-of-bounds access (`none`) instead of leaving the matrix
empty. -/
theorem sumDuplicates_empty_out_of_bounds :
    TripletMatrix.sumDuplicates emptyTriplet = none := by
  rfl

/-- C9: `TripletMatrixOffsetUpperTriangle::add` with block-local `row > col`
leaves the shared matrix (and the whole view) unchanged, raising no error;
with `row <= col` it appends exactly the translated triple
(row + rowOffset, col + colOffset, value) to the shared matrix. -/
theorem tripletMatrixOffsetUpperTriangle_add_spec
    (V : TripletMatrixOffset) (r c : Int) (v : DataType) :
    (c < r → TripletMatrixOffsetUpperTriangle.add V r c v = V) ∧
    (r ≤ c →
      (TripletMatrixOffsetUpperTriangle.add V r c v).mat.entries
          = V.mat.entries ++ [⟨r + V.rowOffset, c + V.colOffset, v⟩] ∧
      (TripletMatrixOffsetUpperTriangle.add V r c v).mat.numRows = V.mat.numRows ∧
      (TripletMatrixOffsetUpperTriangle.add V r c v).mat.numCols = V.mat.numCols ∧
      (TripletMatrixOffsetUpperTriangle.add V r c v).rowOffset = V.rowOffset ∧
      (TripletMatrixOffsetUpperTriangle.add V r c v).colOffset = V.colOffset) := by
  constructor
  · intro hcr
    have hne : ¬ r ≤ c := by omega
    simp [TripletMatrixOffsetUpperTriangle.add, hne]
  · intro hrc
    simp [TripletMatrixOffsetUpperTriangle.add, hrc, TripletMatrix.add]

/-- Witness for C9 at a concrete view: a below-diagonal write is discarded
and an on-or-above-diagonal write appends the translated triple. -/
theorem tripletMatrixOffsetUpperTriangle_add_spec_witness :
    TripletMatrixOffsetUpperTriangle.add ⟨⟨4, 4, []⟩, 2, 2, 1, 1⟩ 1 0 5
        = (⟨⟨4, 4, []⟩, 2, 2, 1, 1⟩ : TripletMatrixOffset) ∧
    (TripletMatrixOffsetUpperTriangle.add ⟨⟨4, 4, []⟩, 2, 2, 1, 1⟩ 0 1 5).mat.entries
        = [⟨1, 2, 5⟩] := by
  constructor
  · exact (tripletMatrixOffsetUpperTriangle_add_spec ⟨⟨4, 4, []⟩, 2, 2, 1, 1⟩ 1 0 5).1
      (by decide)
  · exact ((tripletMatrixOffsetUpperTriangle_add_spec ⟨⟨4, 4, []⟩, 2, 2, 1, 1⟩ 0 1 5).2
      (by decide)).1

theorem tripletGetAux_append (row col : Int) (l1 l2 : List Trip) (acc : DataType) :
    tripletGetAux row col (l1 ++ l2) acc
      = tripletGetAux row col l2 (tripletGetAux row col l1 acc) := by
  induction l1 generalizing acc with
  | nil => rfl
  | cons e rest ih =>
      simp only [List.cons_append, tripletGetAux]
      exact ih _

theorem tripletGetAux_zeroed (row col : Int) (l : List Trip) (acc : DataType) :
    tripletGetAux row col
      (l.map (fun e => if e.row = row ∧ e.col = col then { e with val := 0 } else e)) acc
      = acc := by
  induction l generalizing acc with
  | nil => rfl
  | cons e rest ih =>
      by_cases h : e.row = row ∧ e.col = col
      · simp only [List.map_cons, if_pos h, tripletGetAux, h, and_self, if_true, add_zero, ih]
      · simp only [List.map_cons, if_neg h, tripletGetAux, ih, h, if_false]

theorem zeroed_append_get? (row col : Int) (tail : List Trip) :
    ∀ (l : List Trip) (k : Nat) (e : Trip), l.get? k = some e →
      ((l.map (fun x => if x.row = row ∧ x.col = col then { x with val := 0 } else x)
          ++ tail).get? k
        = some (if e.row = row ∧ e.col = col then { e with val := 0 } else e)) := by
  intro l
  induction l with
  | nil => intro k e h; simp at h
  | cons a rest ih =>
      intro k e h
      cases k with
      | zero =>
          simp only [List.get?_cons_zero, Option.some.injEq] at h
          subst h
          rfl
      | succ n =>
          simp only [List.get?_cons_succ] at h
          simpa only [List.map_cons, List.cons_append, List.get?_cons_succ] using ih n e h

/-- C5: after `TripletMatrix::set (i, j, v)` on an in-bounds position,
`get (i, j)` returns `v`; every previously stored triple survives at its
position, with its value replaced by exactly zero when its coordinates
match (i, j) and untouched otherwise; and the number of stored triples
grows by exactly one (the appended (i, j, v)). -/
theorem tripletMatrix_set_spec (M : TripletMatrix) (i j : Int) (v : DataType)
    (hi : 0 ≤ i ∧ i < (M.numRows : Int)) (hj : 0 ≤ j ∧ j < (M.numCols : Int)) :
    (M.set i j v).get i j = v ∧
    (M.set i j v).entries.length = M.entries.length + 1 ∧
    ∀ k e, M.entries.get? k = some e →
      (e.row = i ∧ e.col = j → (M.set i j v).entries.get? k = some ⟨e.row, e.col, 0⟩) ∧
      (¬ (e.row = i ∧ e.col = j) → (M.set i j v).entries.get? k = some e) := by
  refine ⟨?_, ?_, ?_⟩
  · show tripletGetAux i j (M.entries.map _ ++ [⟨i, j, v⟩]) 0 = v
    rw [tripletGetAux_append, tripletGetAux_zeroed]
    simp [tripletGetAux]
  · have hform : (M.set i j v).entries
        = M.entries.map (fun x => if x.row = i ∧ x.col = j then { x with val := 0 } else x)
          ++ [⟨i, j, v⟩] := rfl
    rw [hform]
    simp
  · intro k e h
    have hmain := zeroed_append_get? i j [⟨i, j, v⟩] M.entries k e h
    have hform : (M.set i j v).entries
        = M.entries.map (fun x => if x.row = i ∧ x.col = j then { x with val := 0 } else x)
          ++ [⟨i, j, v⟩] := rfl
    rw [hform]
    constructor
    · intro hmatch
      rw [hmain, if_pos hmatch]
    · intro hmiss
      rw [hmain, if_neg hmiss]

/-- Witness for C5 on a concrete matrix holding one matching triple. -/
theorem tripletMatrix_set_spec_witness :
    ((⟨2, 2, [⟨0, 0, 7⟩]⟩ : TripletMatrix).set 0 0 5).get 0 0 = 5 ∧
    ((⟨2, 2, [⟨0, 0, 7⟩]⟩ : TripletMatrix).set 0 0 5).entries.length = 2 ∧
    ((⟨2, 2, [⟨0, 0, 7⟩]⟩ : TripletMatrix).set 0 0 5).entries.get? 0 = some ⟨0, 0, 0⟩ := by
  have h := tripletMatrix_set_spec ⟨2, 2, [⟨0, 0, 7⟩]⟩ 0 0 5 (by decide) (by decide)
  refine ⟨h.1, h.2.1, ?_⟩
  exact (h.2.2 0 ⟨0, 0, 7⟩ (by decide)).1 (by decide)

/-- C7: on an absent (implicit identity) row, `GenSparseMatrix::set`
either succeeds as a no-op or throws `"Row does not exist."`; it succeeds
exactly when `(I == J and v == _diagEntry) or v == 0`; and whenever it
succeeds the matrix — hence every observable `get` — is unchanged. -/
theorem genSparseMatrix_set_absent_row_spec (M : GenSparseMatrix) (I J : Int) (v : DataType)
    (h : lget? M.rows I = some none) :
    (M.set I J v = Except.ok M ∨ M.set I J v = Except.error "Row does not exist.") ∧
    (M.set I J v = Except.ok M ↔ ((I = J ∧ v = M.diagEntry) ∨ v = 0)) ∧
    ∀ N, M.set I J v = Except.ok N → ∀ r c, N.get r c = M.get r c := by
  have hEq : M.set I J v
      = if (I = J ∧ v = M.diagEntry) ∨ v = 0 then Except.ok M
        else Except.error "Row does not exist." := by
    unfold GenSparseMatrix.set
    rw [h]
  by_cases hc : (I = J ∧ v = M.diagEntry) ∨ v = 0
  · rw [hEq, if_pos hc]
    refine ⟨Or.inl rfl, ⟨fun _ => hc, fun _ => rfl⟩, ?_⟩
    intro N hN r c
    cases hN
    rfl
  · rw [hEq, if_neg hc]
    refine ⟨Or.inr rfl, ⟨fun hok => absurd hok (by simp), fun hcc => absurd hcc hc⟩, ?_⟩
    intro N hN
    cases hN

/-- Concrete row-indexed matrix: row 0 explicit with the association
{0 ↦ 3}, row 1 absent (implicit identity), shared diagonal 1. -/
def gsExample : GenSparseMatrix := ⟨2, 2, [some ⟨[(0, 3)]⟩, none], 1⟩

/-- Witness for C7: on the absent row 1, writing the shared diagonal on the
diagonal is an accepted no-op and writing 2 off-diagonal throws. -/
theorem genSparseMatrix_set_absent_row_spec_witness :
    gsExample.set 1 1 1 = Except.ok gsExample ∧
    gsExample.set 1 0 2 = Except.error "Row does not exist." := by
  have hOk := genSparseMatrix_set_absent_row_spec gsExample 1 1 1 (by decide)
  have hErr := genSparseMatrix_set_absent_row_spec gsExample 1 0 2 (by decide)
  refine ⟨hOk.2.1.mpr (Or.inl ⟨rfl, rfl⟩), ?_⟩
  refine hErr.1.resolve_left (fun hok => ?_)
  have := hErr.2.1.mp hok
  simp at this

theorem lget?_map {α β : Type} (g : α → β) (l : List α) (i : Int) :
    lget? (l.map g) i = (lget? l i).map g := by
  unfold lget?
  by_cases h : i < 0
  · simp [h]
  · simp [h, List.get?_map]

theorem rget_scale (j : Int) (f : DataType) (l : List (Int × DataType)) :
    SRow.rget j (l.map (fun p => (p.1, f * p.2))) = f * SRow.rget j l := by
  induction l with
  | nil => simp [SRow.rget]
  | cons p rest ih =>
      by_cases h : p.1 = j
      · simp [SRow.rget, h]
      · simp [SRow.rget, h, ih]

/-- C8: when row `i` has no row handle, neither `operator*=` nor
`scaleRow (i, f)` changes any `get (i, j)` — on the diagonal the shared
diagonal value is still returned, not `f` times it — while every row with a
present handle is scaled entry-wise by `operator*=`. -/
theorem genSparseMatrix_scale_absent_row_spec (M : GenSparseMatrix) (f : DataType) (i : Int)
    (h : lget? M.rows i = some none) :
    (∀ j, (M.scaleAll f).get i j = M.get i j) ∧
    M.scaleRow i f = some M ∧
    ∀ k row, lget? M.rows k = some (some row) →
      ∀ j, (M.scaleAll f).get k j = (M.get k j).map (fun x => f * x) := by
  refine ⟨?_, ?_, ?_⟩
  · intro j
    unfold GenSparseMatrix.get GenSparseMatrix.scaleAll
    rw [lget?_map, h]
    rfl
  · unfold GenSparseMatrix.scaleRow
    rw [h]
    rfl
  · intro k row hk j
    unfold GenSparseMatrix.get GenSparseMatrix.scaleAll
    rw [lget?_map, hk]
    simp only [Option.map_some]
    show some (SRow.rget j (row.rscale f).assoc) = some (f * SRow.rget j row.assoc)
    rw [show (row.rscale f).assoc = row.assoc.map (fun p => (p.1, f * p.2)) from rfl,
      rget_scale]

/-- Witness for C8 on `gsExample`: scaling leaves the absent row 1 reading
the diagonal 1, `scaleRow` on it is a no-op, and the present row 0 is
scaled from 3 to 15. -/
theorem genSparseMatrix_scale_absent_row_spec_witness :
    (gsExample.scaleAll 5).get 1 1 = gsExample.get 1 1 ∧
    gsExample.scaleRow 1 5 = some gsExample ∧
    (gsExample.scaleAll 5).get 0 0 = (gsExample.get 0 0).map (fun x => 5 * x) := by
  have h := genSparseMatrix_scale_absent_row_spec gsExample 5 1 (by decide)
  exact ⟨h.1 1, h.2.1, h.2.2 0 ⟨[(0, 3)]⟩ (by decide) 0⟩
